import Mathlib

/-!
Shallow embedding of the `grobli/xmltest` repository (Python) in Lean 4.

Embedded source files:
  * `src/nuget/models/metadata.py` — `Version`, `VersionRange`, registration
    index / catalog page data model;
  * `src/nuget/nugetclient.py` — `CacheEntry`, `Cache`, `NugetClient.get_metadata`.

Conventions of the embedding:
  * Python `str` is Lean `String`; character-level helpers operate on `List Char`
    (Python string slicing/splitting is re-implemented structurally so that the
    kernel can evaluate it).
  * Python exceptions are modelled by the `PyErr` type and fallible code returns
    `Except PyErr _`.
  * `datetime` values are modelled as `Int` timestamps (seconds); `timedelta` as
    an `Int` number of seconds; `timedelta(days=10)` becomes `10 * 86400`.
-/

/-- The Python exception classes that the embedded code can raise. -/
inductive PyErr where
  | valueError
  | unboundLocalError
  | attributeError
  | runtimeError
deriving DecidableEq, Repr

/-- ASCII whitespace as recognised by Python's `str.strip` / `int`
(the unicode whitespace extension is not exercised by this code base). -/
def pyIsSpace (c : Char) : Bool :=
  c = ' ' || c = '\t' || c = '\n' || c = '\r' || c = '\x0b' || c = '\x0c'

/-- Python `str.strip()`: remove leading and trailing whitespace. -/
def pyStrip (cs : List Char) : List Char :=
  ((cs.dropWhile pyIsSpace).reverse.dropWhile pyIsSpace).reverse

/-- Python `str.split(sep)` with a one-character separator and no `maxsplit`:
always returns at least one (possibly empty) part. -/
def pySplitChar (sep : Char) : List Char → List (List Char)
  | [] => [[]]
  | c :: rest =>
    match pySplitChar sep rest with
    | [] => [[]]
    | p :: ps => if c = sep then [] :: p :: ps else (c :: p) :: ps

/-- Python `str.split(sep, maxsplit=1)`: `some (before, after)` when the
separator occurs (split at its first occurrence), `none` when it does not
(Python then returns the one-element list `[s]`). -/
def pySplit1 (sep : Char) : List Char → Option (List Char × List Char)
  | [] => none
  | c :: rest =>
    if c = sep then some ([], rest)
    else match pySplit1 sep rest with
      | none => none
      | some (before, after) => some (c :: before, after)

/-- Python `int(s)` on a string: strip whitespace, accept an optional sign
followed by one or more decimal digits, raise `ValueError` otherwise.
(Underscore digit grouping, which this code base never feeds to `int`,
is not modelled.) -/
def pyInt (cs : List Char) : Except PyErr Int :=
  let digitsVal (ds : List Char) : Int :=
    ds.foldl (fun n c => 10 * n + (Int.ofNat (c.toNat - 48))) 0
  match pyStrip cs with
  | [] => .error .valueError
  | '-' :: ds =>
    if ds ≠ [] && ds.all Char.isDigit then .ok (-(digitsVal ds)) else .error .valueError
  | '+' :: ds =>
    if ds ≠ [] && ds.all Char.isDigit then .ok (digitsVal ds) else .error .valueError
  | ds =>
    if ds.all Char.isDigit then .ok (digitsVal ds) else .error .valueError

/-- `metadata.py` `Version` (lines 5–15): numeric fields plus the optional
release suffix (stored with its delimiter, exactly as the source keeps it). -/
structure Version where
  major : Int
  minor : Int
  patch : Int
  release : Option String
deriving DecidableEq, Repr

/-- `Version.text` (metadata.py:13–15):
`f'{major}.{minor}.{patch}{release if release else ""}'`.
A `release` of `some ""` is falsy in Python and renders as `""`, which the
`match` below reproduces because appending the empty string is the identity. -/
def Version.text (v : Version) : String :=
  toString v.major ++ "." ++ toString v.minor ++ "." ++ toString v.patch ++
    (match v.release with
     | some r => r
     | none => "")

/-- The first half of `Version.create` (metadata.py:22–33): split off the
release suffix at the first `-`, else at the first `+`; the suffix keeps its
delimiter. Returns the numeric part (as characters) and the suffix. -/
def versionNumericSplit (version_str : String) : List Char × Option String :=
  let stripped := pyStrip version_str.toList
  match pySplit1 '-' stripped with
  | some (before, after) => (before, some (String.mk ('-' :: after)))
  | none =>
    match pySplit1 '+' stripped with
    | some (before, after) => (before, some (String.mk ('+' :: after)))
    | none => (stripped, none)

/-- Second half of `Version.create` (metadata.py:35–49), dispatching on the
`.`-separated components of the numeric part:
  * 2 parts — patch stays `None` and `int(patch) if patch else 0` yields 0;
  * 3 parts — an empty patch string is falsy and also defaults to 0;
  * 4 parts — the fourth component replaces any release suffix, prefixed `.`;
  * 1 part — `major` is never assigned, so `int(major)` raises
    `UnboundLocalError`;
  * 5 or more parts — the 4-name tuple unpacking raises `ValueError`.
`int` is applied to major, then minor, then patch, in source order. -/
def versionFromParts (parts : List (List Char)) (release : Option String) :
    Except PyErr Version :=
  match parts with
  | [maj, mnr] => do
    let ma ← pyInt maj
    let mi ← pyInt mnr
    pure ⟨ma, mi, 0, release⟩
  | [maj, mnr, pat] => do
    let ma ← pyInt maj
    let mi ← pyInt mnr
    let pa ← if pat = [] then pure 0 else pyInt pat
    pure ⟨ma, mi, pa, release⟩
  | [maj, mnr, pat, rel] => do
    let ma ← pyInt maj
    let mi ← pyInt mnr
    let pa ← if pat = [] then pure 0 else pyInt pat
    pure ⟨ma, mi, pa, some (String.mk ('.' :: rel))⟩
  | [_] => .error .unboundLocalError
  | _ => .error .valueError

/-- `Version.create` (metadata.py:17–49): split off the release suffix, then
build the version from the `.`-separated numeric components. -/
def Version.create (version_str : String) : Except PyErr Version :=
  let np := versionNumericSplit version_str
  versionFromParts (pySplitChar '.' np.1) np.2

/-- `Version.copy` (metadata.py:51–52): re-parse the canonical text. -/
def Version.copy (v : Version) : Except PyErr Version :=
  Version.create v.text

/-- `Version.__eq__` (metadata.py:54–57): canonical-text equality (both
operands are Versions throughout the embedded code, so the `isinstance`
branch does not arise). -/
def Version.eq (self value : Version) : Bool :=
  self.text == value.text

/-- `Version.__gt__` (metadata.py:59–74): equal texts are never greater;
otherwise lexicographic on (major, minor, patch) with fall-through to
`False`. -/
def Version.gt (self value : Version) : Bool :=
  if Version.eq self value then false
  else if self.major > value.major then true
  else if self.major == value.major then
    if self.minor > value.minor then true
    else if self.minor == value.minor && self.patch > value.patch then true
    else false
  else false

/-- `Version.__lt__` (metadata.py:76–83): equal texts are never lesser;
otherwise literally `not self > value`. -/
def Version.lt (self value : Version) : Bool :=
  if Version.eq self value then false
  else !(Version.gt self value)

/-- `Version.__ge__` (metadata.py:85–89). -/
def Version.ge (self value : Version) : Bool :=
  Version.eq self value || Version.gt self value

/-- `Version.__le__` (metadata.py:91–95). -/
def Version.le (self value : Version) : Bool :=
  Version.eq self value || Version.lt self value

/-- `metadata.py` `VersionRange` (lines 98–103). -/
structure VersionRange where
  minimum : Option Version
  maximum : Option Version
  min_inclusive : Bool := true
  max_inclusive : Bool := true
deriving DecidableEq, Repr

/-- Python `'(' in s` — single-character substring containment. -/
def pyContains (cs : List Char) (c : Char) : Bool :=
  cs.contains c

/-- Python `s.startswith(c)` for a one-character pattern. -/
def pyStartsWith (c : Char) : List Char → Bool
  | [] => false
  | x :: _ => x = c

/-- Python `s.endswith(c)` for a one-character pattern. -/
def pyEndsWith (c : Char) (cs : List Char) : Bool :=
  pyStartsWith c cs.reverse

/-- `VersionRange.from_rangestring` (metadata.py:112–143).
The inclusivity flags are read off the raw (unstripped) string. One comma
gives the two-part branch; no comma gives the single-part branch, where a
bare version without both brackets reaches `Version.create(version)` with
the local `version` still unassigned — an `UnboundLocalError`. Three or
more comma-separated parts fall through every branch and produce the
doubly-unbounded range. Slices `[1:]` / `[:-1]` are `List.drop 1` /
`List.dropLast`. -/
def VersionRange.from_rangestring (rangestr : String) : Except PyErr VersionRange :=
  let cs := rangestr.toList
  let mininc := !(pyStartsWith '(' cs)
  let maxinc := !(pyEndsWith ')' cs)
  match (pySplitChar ',' cs).map pyStrip with
  | [versionstr] =>
    if pyContains versionstr '[' && pyContains versionstr ']' then do
      let version ← Version.create (String.mk (versionstr.drop 1).dropLast)
      pure ⟨some version, some version, mininc, maxinc⟩
    else .error .unboundLocalError
  | [left, right] =>
    if left = ['('] && right = [')'] then
      pure ⟨none, none, mininc, maxinc⟩
    else if left = ['('] || left = ['['] then do
      let version ← Version.create (String.mk right.dropLast)
      pure ⟨none, some version, mininc, maxinc⟩
    else if right = [')'] then do
      let version ← Version.create (String.mk (left.drop 1))
      pure ⟨some version, none, mininc, maxinc⟩
    else do
      let mn ← Version.create (String.mk (left.drop 1))
      let mx ← Version.create (String.mk right.dropLast)
      pure ⟨some mn, some mx, mininc, maxinc⟩
  | _ => pure ⟨none, none, mininc, maxinc⟩

/-- `VersionRange.inrange` (metadata.py:145–159), with the source's early
returns: equality with a bound returns that bound's inclusivity immediately
(in particular a version equal to the minimum never consults the maximum). -/
def VersionRange.inrange (self : VersionRange) (version : Version) : Bool :=
  let maxCheck : Bool :=
    match self.maximum with
    | some mx =>
      if Version.eq mx version then self.max_inclusive
      else if Version.lt mx version then false
      else true
    | none => true
  match self.minimum with
  | some mn =>
    if Version.eq mn version then self.min_inclusive
    else if Version.gt mn version then false
    else maxCheck
  | none => maxCheck

/-- First half of `VersionRange.common_minimum_version` (metadata.py:162–173):
the candidate minimum. The source's three sequential `if` statements have
mutually exclusive guards (both minimums present / only self's / only
other's), rendered here as one match. `copy` re-parses the version text and
can raise, so the result is in `Except`. -/
def VersionRange.cmvStep1 (self other : VersionRange) : Except PyErr (Option Version) :=
  match self.minimum, other.minimum with
  | some a, some b =>
    if Version.gt a b && self.min_inclusive then (Version.copy a).map some
    else if Version.lt a b && other.min_inclusive then (Version.copy b).map some
    else pure none
  | some a, none =>
    if self.min_inclusive then (Version.copy a).map some else pure none
  | none, some b =>
    if other.min_inclusive then (Version.copy b).map some else pure none
  | none, none => pure none

/-- Second half of `VersionRange.common_minimum_version` (metadata.py:175–187):
when both maximums exist, either pull an existing candidate down through the
two sequential inclusive-maximum checks (the second check sees the value
updated by the first), or, with no candidate, choose the strictly smaller
maximum gated on its own range's inclusivity. The source's inner
`if self.maximum and other.maximum` re-test is a no-op inside that branch. -/
def VersionRange.cmvStep2 (self other : VersionRange) (minimum : Option Version) :
    Except PyErr (Option Version) :=
  match self.maximum, other.maximum with
  | some smax, some omax =>
    match minimum with
    | some m => do
      let m1 ← if Version.le smax m && self.max_inclusive then Version.copy smax else pure m
      let m2 ← if Version.le omax m1 && other.max_inclusive then Version.copy omax else pure m1
      pure (some m2)
    | none =>
      if Version.lt smax omax && self.max_inclusive then (Version.copy smax).map some
      else if Version.gt smax omax && other.max_inclusive then (Version.copy omax).map some
      else pure none
  | _, _ => pure minimum

/-- `VersionRange.common_minimum_version` (metadata.py:161–188): the two
halves in sequence, returning the final `minimum` variable. -/
def VersionRange.common_minimum_version (self other : VersionRange) :
    Except PyErr (Option Version) := do
  let minimum ← VersionRange.cmvStep1 self other
  VersionRange.cmvStep2 self other minimum

/-- `metadata.py` `Dependency` (lines 236–253). -/
structure Dependency where
  url : String
  type : String
  name : String
  range : VersionRange
deriving DecidableEq, Repr

/-- `metadata.py` `DependencyGroup` (lines 256–272). -/
structure DependencyGroup where
  target_framework : Option String
  dependencies : List Dependency
deriving DecidableEq, Repr

/-- `metadata.py` `Vulnerability` (lines 275–290); `severity_name` is a
derived property and not embedded. -/
structure Vulnerability where
  advisory_url : String
  severity : Int
deriving DecidableEq, Repr

/-- `metadata.py` `CatalogEntry` (lines 293–322). -/
structure CatalogEntry where
  url : String
  name : String
  version : Version
  dependency_groups : List DependencyGroup
  vulnerabilities : List Vulnerability
deriving DecidableEq, Repr

/-- `metadata.py` `CatalogItem` (lines 325–341). -/
structure CatalogItem where
  url : String
  type : String
  commit_id : Option String
  commit_timestamp : Option String
  entry : CatalogEntry
deriving DecidableEq, Repr

/-- `metadata.py` `CatalogPage` (lines 344–370). -/
structure CatalogPage where
  url : String
  commit_id : Option String
  commit_timestamp : Option String
  count : Int
  items : List CatalogItem
  version_range : VersionRange
deriving DecidableEq, Repr

/-- `metadata.py` `IndexItem` (lines 191–210). Its complete attribute set is
`url`, `commit_id`, `commit_timestamp`, `count`, `version_range` — it has
no `metadata` attribute. -/
structure IndexItem where
  url : String
  commit_id : Option String
  commit_timestamp : Option String
  count : Int
  version_range : VersionRange
deriving DecidableEq, Repr

/-- `metadata.py` `Index` (lines 213–233), the per-package registration
index (named `MetadataIndex` here to avoid clashing with
`main_index.Index`). -/
structure MetadataIndex where
  url : String
  commit_id : Option String
  commit_timestamp : Option String
  count : Int
  items : List IndexItem
deriving DecidableEq, Repr

namespace NugetClient

/-- `nugetclient.py:183–187` `find_metadata`: first registration index item
whose range contains the requested version. -/
def find_metadata (index : MetadataIndex) (version : Version) : Option IndexItem :=
  index.items.find? (fun item => item.version_range.inrange version)

/-- `nugetclient.py:189–194` `find_catalogitem`: first catalog item over all
pages whose entry version text equals the requested version's text. -/
def find_catalogitem (catalog_pages : List CatalogPage) (version : Version) :
    Option CatalogItem :=
  ((catalog_pages.map CatalogPage.items).flatten).find?
    (fun item => item.entry.version.text == version.text)

/-- The parsed JSON body fetched for an index item's page URL, as dispatched
on `json['@type']` by `get_catalogpages` (nugetclient.py:196–213):
a single inline `catalog:CatalogPage`, a `catalog:CatalogRoot` whose
`CatalogPage`-typed sub-items are collected, or anything else (empty
result). -/
inductive CatalogResponse where
  | page (p : CatalogPage)
  | root (pages : List CatalogPage)
  | other
deriving Repr

/-- The expression `index_item.metadata.url` at nugetclient.py:199.
`IndexItem` declares no attribute named `metadata` (metadata.py:191–210 and
nothing else assigns one), so the attribute access raises `AttributeError`
for every `IndexItem`; when `find_metadata` returned `None` the same access
raises `AttributeError` on `NoneType`. -/
def indexItemMetadataUrl (_index_item : Option IndexItem) : Except PyErr String :=
  .error .attributeError

/-- `nugetclient.py:196–213` `get_catalogpages`. The HTTP fetch and JSON
decode are abstracted into `fetch`; the first statement evaluates
`index_item.metadata.url`, whose `AttributeError` makes the rest of the body
unreachable. -/
def get_catalogpages (fetch : String → CatalogResponse) (index_item : Option IndexItem) :
    Except PyErr (List CatalogPage) := do
  let url ← indexItemMetadataUrl index_item
  match fetch url with
  | .page p => pure [p]
  | .root pages => pure pages
  | .other => pure []

/-- `nugetclient.py:182–227` `get_metadata`. The registration index obtained
by the inner `get_index` (an HTTP fetch plus JSON decode of
`{registration base}/{package}/index.json`) is abstracted into the
`reg_index` argument; `fetch` abstracts the page fetch. The body then runs
exactly the source's final four statements. -/
def get_metadata (fetch : String → CatalogResponse) (reg_index : MetadataIndex)
    (package_version : String) : Except PyErr (Option CatalogItem) := do
  let version ← Version.create package_version
  let metadata := find_metadata reg_index version
  let catalogpages ← get_catalogpages fetch metadata
  pure (find_catalogitem catalogpages version)

end NugetClient

/-!
## TTL cache (`nugetclient.py:19–142`)

Modelling choices, all noted at the definition they affect:
  * the cache directory's contents are carried inside the state as a list of
    `FileRec`s in directory-listing order;
  * a backing file's name `f'{keyhash}.{b64(isoformat(expiry))}.cache'`
    (CacheEntry.filename) is modelled by its two informative components —
    base64 and ISO-8601 are injective encodings with no `.` in their
    alphabets, so the filename round-trips exactly through
    `CacheEntry.from_filename`'s `filename.split('.')`;
  * a file's content, `gzip(jsonpickle(value))`, is modelled as the value
    itself (both encodings are injective and are inverted on load);
  * `Cache.hashkey` (sha256 hexdigest, nugetclient.py:75–77) is abstracted
    into a `hashkey : String → String` argument of each operation;
  * `datetime.now()` is an explicit `now : Int` argument.
-/

/-- The informative components of a backing file's name
`f'{keyhash}.{expiry_base64}.cache'` (nugetclient.py:36–40). -/
structure FileName where
  keyhash : String
  expiry : Int
deriving DecidableEq, Repr

/-- One file of the cache directory: its directory, name, and (decoded)
content. -/
structure FileRec (α : Type) where
  dirpath : String
  fname : FileName
  content : α
deriving DecidableEq, Repr

/-- The full path of a directory entry, `os.path.join(dirpath, filename)`. -/
def FileRec.path (f : FileRec α) : String × FileName :=
  (f.dirpath, f.fname)

/-- `nugetclient.py:19–25` `CacheEntry`; `expiry_date` is an absolute
timestamp. -/
structure CacheEntry (α : Type) where
  keyhash : String
  value : α
  dirpath : String
  expiry_date : Int
deriving DecidableEq, Repr

/-- `CacheEntry.filename` (nugetclient.py:36–40). -/
def CacheEntry.filename (e : CacheEntry α) : FileName :=
  ⟨e.keyhash, e.expiry_date⟩

/-- `CacheEntry.filepath` (nugetclient.py:42–44). -/
def CacheEntry.filepath (e : CacheEntry α) : String × FileName :=
  (e.dirpath, e.filename)

/-- `CacheEntry.isexpired` (nugetclient.py:46–48): `now > expiry_date`. -/
def CacheEntry.isexpired (now : Int) (e : CacheEntry α) : Bool :=
  e.expiry_date < now

/-- `CacheEntry.from_filename` (nugetclient.py:27–34): decode key hash and
expiry from the file name, then load the value from the file's content. -/
def CacheEntry.from_filename (fn : FileName) (cache_dirpath : String) (content : α) :
    CacheEntry α :=
  ⟨fn.keyhash, content, cache_dirpath, fn.expiry⟩

/-- Whether a path exists in the directory, `os.path.exists`. -/
def fsExists (p : String × FileName) (files : List (FileRec α)) : Bool :=
  files.any (fun f => decide (f.path = p))

/-- `os.remove` wrapped in `CacheEntry.delete_file`'s existence check
(nugetclient.py:65–67): drop every directory entry with that path. -/
def fsRemove (p : String × FileName) (files : List (FileRec α)) : List (FileRec α) :=
  files.filter (fun f => !(decide (f.path = p)))

/-- `CacheEntry.save` (nugetclient.py:57–63): skip when the file already
exists, else write the serialized value under `filepath`. -/
def CacheEntry.save (e : CacheEntry α) (files : List (FileRec α)) : List (FileRec α) :=
  if fsExists e.filepath files then files
  else files ++ [⟨e.dirpath, e.filename, e.value⟩]

/-- The `Cache` object's mutable state (nugetclient.py:70–73) together with
the backing directory's contents. The Python index is a `dict` keyed by each
entry's `keyhash`; it is modelled as the insertion-ordered list of entries,
with key-uniqueness where needed expressed by `Nodup` on the key hashes. -/
structure CacheState (α : Type) where
  cache_dirpath : String
  index : List (CacheEntry α)
  files : List (FileRec α)
deriving DecidableEq, Repr

/-- Python `self.index.get(keyhash)` / `self.index[keyhash]`: the entry
stored under a key hash. -/
def idxFind (keyhash : String) (index : List (CacheEntry α)) : Option (CacheEntry α) :=
  index.find? (fun e => e.keyhash == keyhash)

/-- Python `dict` assignment `self.index[k] = e`: replace in place when the
key is present, append otherwise (insertion order is preserved). -/
def dictInsert (e : CacheEntry α) : List (CacheEntry α) → List (CacheEntry α)
  | [] => [e]
  | x :: xs => if x.keyhash == e.keyhash then e :: xs else x :: dictInsert e xs

namespace Cache

/-- `Cache.__delete` (nugetclient.py:118–123): when the key hash is indexed,
remove it from the index and delete the entry's backing file. (`del` on a
`dict` removes its sole binding for the key; on the modelled list this is a
filter.) -/
def privDelete (keyhash : String) (st : CacheState α) : CacheState α :=
  match idxFind keyhash st.index with
  | none => st
  | some entry =>
    { st with
      index := st.index.filter (fun e => !(e.keyhash == keyhash))
      files := fsRemove entry.filepath st.files }

/-- `Cache.delete` (nugetclient.py:125–127). -/
def delete (hashkey : String → String) (key : String) (st : CacheState α) : CacheState α :=
  privDelete (hashkey key) st

/-- `Cache.add` (nugetclient.py:93–102): delete any existing entry for the
key hash first, then insert a fresh entry whose expiry is `now` plus either
the given delta or the 10-day default — `timedelta()` arguments are falsy
at zero, which `if not expires_in` sends to the default as well. -/
def add (hashkey : String → String) (now : Int) (key : String) (value : α)
    (expires_in : Option Int) (st : CacheState α) : CacheState α :=
  let keyhash := hashkey key
  let st1 :=
    match idxFind keyhash st.index with
    | some ce => privDelete ce.keyhash st
    | none => st
  let expiry :=
    match expires_in with
    | none => now + 10 * 86400
    | some d => if d = 0 then now + 10 * 86400 else now + d
  { st1 with index := dictInsert ⟨keyhash, value, st1.cache_dirpath, expiry⟩ st1.index }

/-- `Cache.get` (nugetclient.py:104–116): miss on an absent key hash; on a
hit, an expired entry is deleted (index and file) and reported as a miss,
otherwise the stored value is returned. -/
def get (hashkey : String → String) (now : Int) (key : String) (st : CacheState α) :
    Option α × CacheState α :=
  let keyhash := hashkey key
  match idxFind keyhash st.index with
  | none => (none, st)
  | some entry =>
    if entry.isexpired now then (none, privDelete keyhash st)
    else (some entry.value, st)

/-- `Cache.save` (nugetclient.py:129–131): persist every index entry in
order. -/
def save (st : CacheState α) : CacheState α :=
  { st with files := st.index.foldl (fun fs e => CacheEntry.save e fs) st.files }

/-- `Cache.init` (nugetclient.py:79–91): rebuild the index by decoding every
directory entry, in listing order, into the `dict` (later files with the
same key hash overwrite earlier ones). Directory creation for a missing
path is a no-op on an empty contents list. -/
def init (cache_dirpath : String) (files : List (FileRec α)) : CacheState α :=
  { cache_dirpath
    index := files.foldl
      (fun idx f => dictInsert (CacheEntry.from_filename f.fname cache_dirpath f.content) idx)
      []
    files }

/-- The loop of `Cache.delete_expired` (nugetclient.py:133–138). The `for`
iterates over `self.index.items()` while the body deletes from that same
dict; CPython's dict iterator raises
`RuntimeError: dictionary changed size during iteration` on the step after
a deletion, so the first expired entry is removed (index and backing file)
and the sweep then aborts; with no expired entry the loop completes
cleanly. -/
def deleteExpiredGo (now : Int) : List (CacheEntry α) → CacheState α →
    CacheState α × Option PyErr
  | [], st => (st, none)
  | e :: rest, st =>
    if e.isexpired now then
      ({ st with
          index := st.index.filter (fun x => !(x.keyhash == e.keyhash))
          files := fsRemove e.filepath st.files },
        some .runtimeError)
    else deleteExpiredGo now rest st

/-- `Cache.delete_expired` (nugetclient.py:133–138). -/
def delete_expired (now : Int) (st : CacheState α) : CacheState α × Option PyErr :=
  deleteExpiredGo now st.index st

/-- `Cache.__contains__` (nugetclient.py:140–142): presence of the key hash
in the index, with no expiry check. -/
def contains (hashkey : String → String) (key : String) (st : CacheState α) : Bool :=
  (idxFind (hashkey key) st.index).isSome

end Cache

/-!
## Theorems for the claims
-/

/-- A registration index whose single item's range `[1.0.0, 2.0.0]` contains
the requested version `1.0.0`. -/
def c1RegIndex : MetadataIndex :=
  ⟨"https://example.invalid/reg/pkg/index.json", none, none, 1,
    [⟨"https://example.invalid/reg/pkg/page1.json", none, none, 3,
      ⟨some ⟨1, 0, 0, none⟩, some ⟨2, 0, 0, none⟩, true, true⟩⟩]⟩

/-- A registration index with no item at all, so no item's range contains the
requested version. -/
def c1EmptyRegIndex : MetadataIndex :=
  ⟨"https://example.invalid/reg/pkg/index.json", none, none, 0, []⟩

/-- Claim C1 (code bug): `get_metadata` never reaches the absent-result path.
Whether `find_metadata` finds a covering registration item (first conjunct)
or finds none (second conjunct), `get_catalogpages` immediately evaluates
`index_item.metadata.url` (nugetclient.py:199) and `IndexItem` has no
`metadata` attribute, so the call raises `AttributeError` instead of
returning the catalog item, respectively `None`. -/
theorem get_metadata_raises_attribute_error :
    NugetClient.get_metadata (fun _ => .other) c1RegIndex "1.0.0" =
      .error .attributeError ∧
    NugetClient.get_metadata (fun _ => .other) c1EmptyRegIndex "1.0.0" =
      .error .attributeError :=
  ⟨rfl, rfl⟩

/-- Version `1.2.3-alpha`: same numeric fields as `c2b`, different release. -/
def c2a : Version := ⟨1, 2, 3, some "-alpha"⟩

/-- Version `1.2.3-beta`: same numeric fields as `c2a`, different release. -/
def c2b : Version := ⟨1, 2, 3, some "-beta"⟩

/-- Claim C2 counterexample: for `1.2.3-alpha` and `1.2.3-beta` (equal
numeric fields, different release suffixes) it is not the case that both
`a > b` and `a < b` are false — `a < b` evaluates to `True`. -/
theorem version_release_comparison_counterexample :
    ¬ (Version.gt c2a c2b = false ∧ Version.lt c2a c2b = false) := by
  decide

/-- Helper: whenever `__gt__` returns `True`, `__lt__` returns `False`
(`__gt__` already returns `False` on text-equal versions, and otherwise
`__lt__` is the negation of `__gt__`). -/
theorem Version.lt_eq_false_of_gt (a b : Version) (h : Version.gt a b = true) :
    Version.lt a b = false := by
  cases heq : Version.eq a b with
  | true => simp [Version.gt, heq] at h
  | false => simp [Version.lt, heq, h]

/-- Claim C2 amended: for versions with equal major, minor and patch but
unequal canonical texts (e.g. different release suffixes), `a > b` is
`False` as the claim says, but `a < b` is `True` (not `False`):
`__lt__` returns `not self > value` whenever the texts differ. -/
theorem version_release_gt_false_lt_true (a b : Version)
    (hmaj : a.major = b.major) (hmin : a.minor = b.minor) (hpat : a.patch = b.patch)
    (htext : a.text ≠ b.text) :
    Version.gt a b = false ∧ Version.lt a b = true := by
  have heq : Version.eq a b = false := by
    simp [Version.eq, htext]
  have hgt : Version.gt a b = false := by
    simp [Version.gt, heq, hmaj, hmin, hpat]
  exact ⟨hgt, by simp [Version.lt, heq, hgt]⟩

/-- Witness for the amended claim C2 at `1.2.3-alpha` / `1.2.3-beta`. -/
theorem version_release_gt_false_lt_true_witness :
    Version.gt c2a c2b = false ∧ Version.lt c2a c2b = true :=
  version_release_gt_false_lt_true c2a c2b rfl rfl rfl (by decide)

/-- Claim C3 (code bug): parsing the bare bracket-free version string
`"1.2.3"` does not produce a minimum-only range. The single-part branch of
`from_rangestring` executes `version = Version.create(version)`
(metadata.py:127) with the local `version` still unassigned, raising
`UnboundLocalError`. -/
theorem from_rangestring_bare_version_raises :
    VersionRange.from_rangestring "1.2.3" = .error .unboundLocalError := rfl

/-- Cache entry for key hash `"h1"`, expired at `now = 200`. -/
def c5e1 : CacheEntry Nat := ⟨"h1", 11, "./cache", 100⟩

/-- Cache entry for key hash `"h2"`, also expired at `now = 200`. -/
def c5e2 : CacheEntry Nat := ⟨"h2", 22, "./cache", 150⟩

/-- A cache state holding `c5e1` and `c5e2`, both expired at `now = 200`,
each with its backing file. -/
def c5State : CacheState Nat :=
  ⟨"./cache", [c5e1, c5e2],
    [⟨"./cache", ⟨"h1", 100⟩, 11⟩, ⟨"./cache", ⟨"h2", 150⟩, 22⟩]⟩

/-- Claim C5 (code bug): on a cache whose index holds two expired entries,
`delete_expired` does not remove both and complete. The `for` loop deletes
from `self.index` while iterating it, so CPython raises
`RuntimeError: dictionary changed size during iteration` right after the
first deletion: the first expired entry (index entry and file) is removed,
the second expired entry survives, and the call raises. -/
theorem delete_expired_raises_runtime_error :
    Cache.delete_expired 200 c5State =
      (⟨"./cache", [c5e2], [⟨"./cache", ⟨"h2", 150⟩, 22⟩]⟩, some .runtimeError) := rfl

/-- Claim C8 counterexample: `"1.2.3.4.5"` has five numeric components — so
at least major and minor are numeric — yet `Version.create` fails (the
4-name tuple unpacking raises `ValueError`) instead of succeeding. -/
theorem version_create_five_components_fails :
    Version.create "1.2.3.4.5" = .error .valueError := rfl

/-- Helper: `ValueError` is the only exception `pyInt` raises. -/
theorem pyInt_error_eq (cs : List Char) (e : PyErr) (h : pyInt cs = .error e) :
    e = .valueError := by
  unfold pyInt at h
  repeat' split at h
  all_goals simp_all

/-- Claim C8 amended: after splitting off the release suffix, `Version.create`
fails with `UnboundLocalError` on one `.`-separated component and with
`ValueError` on five or more (even all-numeric ones); on exactly two
components it succeeds iff both parse as integers, defaulting the missing
patch to 0, and a non-integer component makes it fail with `ValueError`. -/
theorem version_create_component_cases (s : String) (parts : List (List Char))
    (hp : pySplitChar '.' (versionNumericSplit s).1 = parts) :
    (parts.length = 1 → Version.create s = .error .unboundLocalError) ∧
    (4 < parts.length → Version.create s = .error .valueError) ∧
    (∀ a b ma mi, parts = [a, b] → pyInt a = .ok ma → pyInt b = .ok mi →
      Version.create s = .ok ⟨ma, mi, 0, (versionNumericSplit s).2⟩) ∧
    (∀ a b, parts = [a, b] →
      (pyInt a = .error .valueError ∨ (pyInt b = .error .valueError)) →
      Version.create s = .error .valueError) := by
  have hcr : Version.create s = versionFromParts parts (versionNumericSplit s).2 := by
    rw [Version.create, hp]
  refine ⟨?_, ?_, ?_, ?_⟩
  · intro hlen
    obtain ⟨a, rfl⟩ := List.length_eq_one.mp hlen
    simp [hcr, versionFromParts]
  · intro hlen
    rcases parts with _ | ⟨a, _ | ⟨b, _ | ⟨c, _ | ⟨d, _ | ⟨e, rest⟩⟩⟩⟩⟩ <;>
      simp_all [versionFromParts]
  · rintro a b ma mi rfl ha hb
    simp [hcr, versionFromParts, ha, hb, Bind.bind, Except.bind, Pure.pure, Except.pure]
  · rintro a b rfl hab
    rcases hab with ha | hb
    · simp [hcr, versionFromParts, ha, Bind.bind, Except.bind]
    · cases ha : pyInt a with
      | ok ma => simp [hcr, versionFromParts, ha, hb, Bind.bind, Except.bind]
      | error err =>
        have := pyInt_error_eq a err ha
        subst this
        simp [hcr, versionFromParts, ha, Bind.bind, Except.bind]

/-- Witness for the amended claim C8: `"1.2"` succeeds with patch 0, `"7"`
raises `UnboundLocalError`, `"1.x"` raises `ValueError`. -/
theorem version_create_component_cases_witness :
    Version.create "1.2" = .ok ⟨1, 2, 0, none⟩ ∧
    Version.create "7" = .error .unboundLocalError ∧
    Version.create "1.x" = .error .valueError :=
  ⟨(version_create_component_cases "1.2" [['1'], ['2']] rfl).2.2.1
      ['1'] ['2'] 1 2 rfl rfl rfl,
   (version_create_component_cases "7" [['7']] rfl).1 rfl,
   (version_create_component_cases "1.x" [['1'], ['x']] rfl).2.2.2
      ['1'] ['x'] rfl (Or.inr rfl)⟩

/-- Claim C4: in `common_minimum_version`, when step 1 produced no candidate
and both ranges carry maximums, the strictly smaller maximum is returned
(as a fresh copy) provided its owning range marks it inclusive. -/
theorem common_minimum_version_smaller_inclusive_maximum (r1 r2 : VersionRange)
    (m1 m2 : Version) (h1 : VersionRange.cmvStep1 r1 r2 = .ok none)
    (h2 : r1.maximum = some m1) (h3 : r2.maximum = some m2) :
    (Version.lt m1 m2 = true → r1.max_inclusive = true →
      VersionRange.common_minimum_version r1 r2 = (Version.copy m1).map some) ∧
    (Version.gt m1 m2 = true → r2.max_inclusive = true →
      VersionRange.common_minimum_version r1 r2 = (Version.copy m2).map some) := by
  constructor
  · intro hlt hincl
    simp [VersionRange.common_minimum_version, h1, VersionRange.cmvStep2, h2, h3,
      hlt, hincl, Bind.bind, Except.bind]
  · intro hgt hincl
    have hlt : Version.lt m1 m2 = false := Version.lt_eq_false_of_gt m1 m2 hgt
    simp [VersionRange.common_minimum_version, h1, VersionRange.cmvStep2, h2, h3,
      hlt, hgt, hincl, Bind.bind, Except.bind]

/-- The parsed form of `"(5.0.13, 5.0.16]"`. -/
def c4R1 : VersionRange := ⟨some ⟨5, 0, 13, none⟩, some ⟨5, 0, 16, none⟩, false, true⟩

/-- The parsed form of `"(5.0.11, 5.0.14]"`. -/
def c4R2 : VersionRange := ⟨some ⟨5, 0, 11, none⟩, some ⟨5, 0, 14, none⟩, false, true⟩

/-- Witness for claim C4, which is the spec's own example:
`parse("(5.0.13, 5.0.16]").common_minimum_version(parse("(5.0.11, 5.0.14]"))`
returns version `5.0.14`. -/
theorem common_minimum_version_smaller_inclusive_maximum_witness :
    VersionRange.from_rangestring "(5.0.13, 5.0.16]" = .ok c4R1 ∧
    VersionRange.from_rangestring "(5.0.11, 5.0.14]" = .ok c4R2 ∧
    VersionRange.common_minimum_version c4R1 c4R2 = .ok (some ⟨5, 0, 14, none⟩) :=
  ⟨rfl, rfl,
    (common_minimum_version_smaller_inclusive_maximum c4R1 c4R2
        ⟨5, 0, 16, none⟩ ⟨5, 0, 14, none⟩ rfl rfl rfl).2 rfl rfl⟩

/-- Claim C7: `get` on a key whose indexed entry has expired returns absent,
removes the entry from the index and deletes its backing file; on a
non-expired entry it returns the stored value and leaves the state alone. -/
theorem cache_get_expiry {α : Type} (hashkey : String → String) (now : Int)
    (k : String) (st : CacheState α) (e : CacheEntry α)
    (hfind : idxFind (hashkey k) st.index = some e) :
    (e.expiry_date < now →
      Cache.get hashkey now k st =
        (none,
          { st with
            index := st.index.filter (fun x => !(x.keyhash == hashkey k))
            files := fsRemove e.filepath st.files })) ∧
    (¬ e.expiry_date < now →
      Cache.get hashkey now k st = (some e.value, st)) := by
  constructor
  · intro hexp
    simp [Cache.get, hfind, CacheEntry.isexpired, hexp, Cache.privDelete]
  · intro hexp
    simp [Cache.get, hfind, CacheEntry.isexpired, hexp]

/-- A single-entry cache state used by the C7 and C10 witnesses; the entry
expires at time 100 and is backed by its file. -/
def c7State : CacheState Nat :=
  ⟨"./cache", [⟨"hx", 7, "./cache", 100⟩], [⟨"./cache", ⟨"hx", 100⟩, 7⟩]⟩

/-- Witness for claim C7: at `now = 200` (expired) the entry and its file are
evicted and the result is absent; at `now = 50` the stored value returns. -/
theorem cache_get_expiry_witness :
    Cache.get (fun _ => "hx") 200 "k" c7State = (none, ⟨"./cache", [], []⟩) ∧
    Cache.get (fun _ => "hx") 50 "k" c7State = (some 7, c7State) :=
  ⟨(cache_get_expiry (fun _ => "hx") 200 "k" c7State ⟨"hx", 7, "./cache", 100⟩
      rfl).1 (by decide),
   (cache_get_expiry (fun _ => "hx") 50 "k" c7State ⟨"hx", 7, "./cache", 100⟩
      rfl).2 (by decide)⟩

/-- Claim C10 (implicit): `in` checks only key-hash presence and ignores
expiry, so on an expired-but-indexed key, membership reports `True` while
`get` reports a miss — the two queries disagree. -/
theorem cache_contains_get_disagree {α : Type} (hashkey : String → String)
    (now : Int) (k : String) (st : CacheState α) (e : CacheEntry α)
    (hfind : idxFind (hashkey k) st.index = some e)
    (hexp : e.expiry_date < now) :
    Cache.contains hashkey k st = true ∧ (Cache.get hashkey now k st).1 = none := by
  constructor
  · simp [Cache.contains, hfind]
  · simp [Cache.get, hfind, CacheEntry.isexpired, hexp]

/-- Witness for claim C10 on the expired single-entry state. -/
theorem cache_contains_get_disagree_witness :
    Cache.contains (fun _ => "hx") "k" c7State = true ∧
    (Cache.get (fun _ => "hx") 200 "k" c7State).1 = none :=
  cache_contains_get_disagree (fun _ => "hx") 200 "k" c7State
    ⟨"hx", 7, "./cache", 100⟩ rfl (by decide)

/-- The backing files whose name carries a given key hash. -/
def filesForKey (h : String) (files : List (FileRec α)) : List (FileRec α) :=
  files.filter (fun f => f.fname.keyhash == h)

/-- The documented cache invariant (spec §3: "every index entry has exactly
one corresponding backing file; every backing file has exactly one index
entry", keys unique): index key hashes are distinct, file paths are
distinct, and every backing file is the file of some index entry. -/
def CacheInv (st : CacheState α) : Prop :=
  (st.index.map CacheEntry.keyhash).Nodup ∧
  (st.files.map FileRec.path).Nodup ∧
  ∀ f ∈ st.files, ∃ e ∈ st.index, FileRec.path f = e.filepath

/-- Looking a key hash up after filtering it out always misses. -/
theorem idxFind_filter_self (h : String) (l : List (CacheEntry α)) :
    idxFind h (l.filter (fun e => !(e.keyhash == h))) = none := by
  rw [idxFind, List.find?_eq_none]
  intro e he
  have h2 := (List.mem_filter.mp he).2
  simp only [Bool.not_eq_true'] at h2
  simp [h2]

/-- `dict` assignment makes the inserted entry the one found for its key. -/
theorem idxFind_dictInsert_self (e : CacheEntry α) (l : List (CacheEntry α)) :
    idxFind e.keyhash (dictInsert e l) = some e := by
  induction l with
  | nil => simp [dictInsert, idxFind, List.find?]
  | cons x xs ih =>
    by_cases hx : x.keyhash = e.keyhash
    · simp [dictInsert, hx, idxFind, List.find?]
    · rw [idxFind] at ih ⊢
      simp [dictInsert, hx, List.find?, ih]

/-- The entry `find?` returns for a key hash carries that key hash. -/
theorem keyhash_of_idxFind (h : String) (l : List (CacheEntry α))
    (e : CacheEntry α) (hf : idxFind h l = some e) : e.keyhash = h := by
  have := List.find?_some hf
  simpa using this

/-- In an index with distinct key hashes, `find?` locates every member. -/
theorem idxFind_of_mem_nodup (l : List (CacheEntry α)) (e : CacheEntry α)
    (hnd : (l.map CacheEntry.keyhash).Nodup) (he : e ∈ l) :
    idxFind e.keyhash l = some e := by
  induction l with
  | nil => simp at he
  | cons x xs ih =>
    rw [List.map_cons, List.nodup_cons] at hnd
    rcases List.mem_cons.mp he with rfl | hmem
    · simp [idxFind, List.find?]
    · have hx : ¬ x.keyhash = e.keyhash := by
        intro hcontra
        exact hnd.1 (hcontra ▸ List.mem_map_of_mem CacheEntry.keyhash hmem)
      have hbx : (x.keyhash == e.keyhash) = false := beq_eq_false_iff_ne.mpr hx
      rw [idxFind] at ih ⊢
      simp [List.find?, hbx, ih hnd.2 hmem]

/-- A missing key hash means no member carries it. -/
theorem not_keyhash_of_idxFind_none (h : String) (l : List (CacheEntry α))
    (hf : idxFind h l = none) : ∀ e ∈ l, e.keyhash ≠ h := by
  intro e he hcontra
  rw [idxFind, List.find?_eq_none] at hf
  exact hf e he (by simp [hcontra])

/-- Under the invariant, all backing files for the key hash that `add` is
about to (re)bind are gone right after `add`'s internal delete — and `add`
itself never writes a file, so the added state has none either. -/
theorem filesForKey_add_eq_nil {α : Type} (hashkey : String → String) (now : Int)
    (k : String) (v : α) (expires_in : Option Int) (st : CacheState α)
    (hinv : CacheInv st) :
    filesForKey (hashkey k) (Cache.add hashkey now k v expires_in st).files = [] := by
  obtain ⟨hnd, _, hmatch⟩ := hinv
  rw [List.eq_nil_iff_forall_not_mem]
  intro f hf
  rw [filesForKey, List.mem_filter] at hf
  obtain ⟨hfmem, hfkey⟩ := hf
  rw [beq_iff_eq] at hfkey
  cases hfind : idxFind (hashkey k) st.index with
  | none =>
    simp only [Cache.add, hfind] at hfmem
    obtain ⟨e, hemem, hepath⟩ := hmatch f hfmem
    have : e.keyhash = hashkey k := by
      have : f.fname = e.filename := congrArg Prod.snd hepath
      rw [← hfkey, this]; rfl
    exact not_keyhash_of_idxFind_none _ _ hfind e hemem this
  | some ce =>
    have hce : ce.keyhash = hashkey k := keyhash_of_idxFind _ _ _ hfind
    simp only [Cache.add, hfind, Cache.privDelete, hce] at hfmem
    rw [fsRemove, List.mem_filter] at hfmem
    obtain ⟨hfmem, hfne⟩ := hfmem
    obtain ⟨e, hemem, hepath⟩ := hmatch f hfmem
    have hekey : e.keyhash = hashkey k := by
      have : f.fname = e.filename := congrArg Prod.snd hepath
      rw [← hfkey, this]; rfl
    have : idxFind e.keyhash st.index = some e := idxFind_of_mem_nodup _ _ hnd hemem
    rw [hekey, hfind] at this
    obtain rfl := Option.some_injective _ this
    rw [hepath] at hfne
    simp at hfne

/-- Removing a path cannot create files for a key hash. -/
theorem filesForKey_fsRemove_nil {α : Type} (h : String) (p : String × FileName)
    (files : List (FileRec α)) (hnil : filesForKey h files = []) :
    filesForKey h (fsRemove p files) = [] := by
  rw [List.eq_nil_iff_forall_not_mem] at hnil ⊢
  intro f hf
  rw [filesForKey, List.mem_filter] at hf
  exact hnil f (by
    rw [filesForKey, List.mem_filter]
    exact ⟨(List.mem_filter.mp hf.1).1, hf.2⟩)

/-- When no file carries the key hash of a path, the path does not exist. -/
theorem fsExists_eq_false_of_filesForKey_nil {α : Type} (h : String)
    (p : String × FileName) (files : List (FileRec α)) (hkey : p.2.keyhash = h)
    (hnil : filesForKey h files = []) : fsExists p files = false := by
  rw [List.eq_nil_iff_forall_not_mem] at hnil
  rw [fsExists]
  by_contra hc
  rw [Bool.not_eq_false, List.any_eq_true] at hc
  obtain ⟨f, hfmem, hfp⟩ := hc
  rw [decide_eq_true_eq] at hfp
  exact hnil f (by
    rw [filesForKey, List.mem_filter]
    refine ⟨hfmem, ?_⟩
    have : f.fname = p.2 := congrArg Prod.snd hfp
    simp [this, hkey])

/-- Persisting entries whose key hashes all differ from `h` leaves the files
for `h` unchanged. -/
theorem filesForKey_save_fold {α : Type} (h : String)
    (entries : List (CacheEntry α)) (fs : List (FileRec α))
    (hent : ∀ e ∈ entries, e.keyhash ≠ h) :
    filesForKey h (entries.foldl (fun fs e => CacheEntry.save e fs) fs) =
      filesForKey h fs := by
  induction entries generalizing fs with
  | nil => rfl
  | cons e rest ih =>
    rw [List.foldl_cons]
    rw [ih _ (fun x hx => hent x (List.mem_cons_of_mem e hx))]
    rw [CacheEntry.save]
    by_cases hex : fsExists e.filepath fs
    · rw [if_pos hex]
    · rw [if_neg hex, filesForKey, List.filter_append, ← filesForKey]
      have : e.keyhash ≠ h := hent e (List.mem_cons_self e rest)
      simp [CacheEntry.filename, this]

/-- `dict` assignment for a key absent from the index appends the entry. -/
theorem dictInsert_eq_append (e : CacheEntry α) (l : List (CacheEntry α))
    (hl : ∀ x ∈ l, x.keyhash ≠ e.keyhash) : dictInsert e l = l ++ [e] := by
  induction l with
  | nil => rfl
  | cons x xs ih =>
    have hx : (x.keyhash == e.keyhash) = false :=
      beq_eq_false_iff_ne.mpr (hl x (List.mem_cons_self x xs))
    simp [dictInsert, hx, ih (fun y hy => hl y (List.mem_cons_of_mem x hy))]

/-- `__delete` never changes the cache directory path. -/
theorem privDelete_cache_dirpath (x : String) (s : CacheState α) :
    (Cache.privDelete x s).cache_dirpath = s.cache_dirpath := by
  cases hf : idxFind x s.index <;> simp [Cache.privDelete, hf]

/-- After `add` with the default expiry, the key's index slot holds exactly
the freshly inserted entry. -/
theorem idxFind_add_none_self {α : Type} (hashkey : String → String) (now : Int)
    (k : String) (v : α) (st : CacheState α) :
    idxFind (hashkey k) (Cache.add hashkey now k v none st).index =
      some ⟨hashkey k, v, st.cache_dirpath, now + 10 * 86400⟩ := by
  cases hf : idxFind (hashkey k) st.index with
  | none =>
    simpa [Cache.add, hf] using
      idxFind_dictInsert_self
        (⟨hashkey k, v, st.cache_dirpath, now + 10 * 86400⟩ : CacheEntry α) st.index
  | some ce =>
    have hce : ce.keyhash = hashkey k := keyhash_of_idxFind _ _ _ hf
    simpa [Cache.add, hf, hce, Cache.privDelete] using
      idxFind_dictInsert_self
        (⟨hashkey k, v, st.cache_dirpath, now + 10 * 86400⟩ : CacheEntry α)
        (st.index.filter (fun e => !(e.keyhash == hashkey k)))

/-- Claim C6: after `add(k, v1)`, a second `add(k, v2)` first deletes the
previous entry fully — in the intermediate state `mid` produced by `add`'s
internal `__delete`, the key hash is gone from the index and no backing file
for it remains — and only then inserts the new entry; afterwards no backing
file for the key hash exists, a `save` persists exactly one, and `get(k)`
returns `v2`. -/
theorem cache_add_overwrite {α : Type} (hashkey : String → String) (now : Int)
    (k : String) (v1 v2 : α) (st st1 mid st2 : CacheState α)
    (hinv : CacheInv st)
    (h1 : st1 = Cache.add hashkey now k v1 none st)
    (hm : mid = Cache.privDelete (hashkey k) st1)
    (h2 : st2 = Cache.add hashkey now k v2 none st1) :
    idxFind (hashkey k) mid.index = none ∧
    filesForKey (hashkey k) mid.files = [] ∧
    st2 = { mid with
            index := dictInsert
              ⟨hashkey k, v2, mid.cache_dirpath, now + 10 * 86400⟩ mid.index } ∧
    filesForKey (hashkey k) st2.files = [] ∧
    (filesForKey (hashkey k) (Cache.save st2).files).length = 1 ∧
    (Cache.get hashkey now k st2).1 = some v2 := by
  subst h2
  subst hm
  subst h1
  have hfind1 := idxFind_add_none_self hashkey now k v1 st
  have hfiles1 := filesForKey_add_eq_nil hashkey now k v1 none st hinv
  generalize Cache.add hashkey now k v1 none st = s1 at hfind1 hfiles1 ⊢
  have hmid : Cache.privDelete (hashkey k) s1 =
      { s1 with
        index := s1.index.filter (fun e => !(e.keyhash == hashkey k))
        files := fsRemove
          (CacheEntry.filepath ⟨hashkey k, v1, st.cache_dirpath, now + 10 * 86400⟩)
          s1.files } := by
    simp [Cache.privDelete, hfind1]
  have hcon1 : idxFind (hashkey k) (Cache.privDelete (hashkey k) s1).index = none := by
    rw [hmid]
    exact idxFind_filter_self (hashkey k) s1.index
  have hcon2 : filesForKey (hashkey k) (Cache.privDelete (hashkey k) s1).files = [] := by
    rw [hmid]
    exact filesForKey_fsRemove_nil _ _ _ hfiles1
  have hstep2 : Cache.add hashkey now k v2 none s1 =
      { Cache.privDelete (hashkey k) s1 with
        index := dictInsert
          ⟨hashkey k, v2, (Cache.privDelete (hashkey k) s1).cache_dirpath,
            now + 10 * 86400⟩
          (Cache.privDelete (hashkey k) s1).index } := by
    simp [Cache.add, hfind1]
  have hnomem := not_keyhash_of_idxFind_none (hashkey k) _ hcon1
  have hcon4 : filesForKey (hashkey k) (Cache.add hashkey now k v2 none s1).files
      = [] := by
    rw [hstep2]
    exact hcon2
  have hmidfold : filesForKey (hashkey k)
      (List.foldl (fun fs e => CacheEntry.save e fs)
        (Cache.privDelete (hashkey k) s1).files
        (Cache.privDelete (hashkey k) s1).index) = [] :=
    (filesForKey_save_fold _ _ _ hnomem).trans hcon2
  have hcon5 : (filesForKey (hashkey k)
      (Cache.save (Cache.add hashkey now k v2 none s1)).files).length = 1 := by
    rw [hstep2]
    simp only [Cache.save]
    rw [dictInsert_eq_append _ _ hnomem, List.foldl_append]
    simp only [List.foldl_cons, List.foldl_nil]
    have hnex : fsExists
        (CacheEntry.filepath
          (⟨hashkey k, v2, (Cache.privDelete (hashkey k) s1).cache_dirpath,
            now + 10 * 86400⟩ : CacheEntry α))
        (List.foldl (fun fs e => CacheEntry.save e fs)
          (Cache.privDelete (hashkey k) s1).files
          (Cache.privDelete (hashkey k) s1).index) = false :=
      fsExists_eq_false_of_filesForKey_nil _ _ _ rfl hmidfold
    rw [CacheEntry.save, hnex]
    simp only [Bool.false_eq_true, if_false]
    rw [filesForKey, List.filter_append, ← filesForKey, hmidfold]
    simp [filesForKey, CacheEntry.filename]
  have hcon6 : (Cache.get hashkey now k (Cache.add hashkey now k v2 none s1)).1
      = some v2 := by
    have hfind2 := idxFind_add_none_self hashkey now k v2 s1
    have hne : CacheEntry.isexpired now
        (⟨hashkey k, v2, s1.cache_dirpath, now + 864000⟩ : CacheEntry α)
        = false := by
      simp only [CacheEntry.isexpired, decide_eq_false_iff_not]
      omega
    simp [Cache.get, hfind2, hne]
  exact ⟨hcon1, hcon2, hstep2, hcon4, hcon5, hcon6⟩

/-- Witness for claim C6: overwriting key `"k"` in an initially empty cache
leaves `get` returning the second value and exactly one persisted backing
file for the key hash. -/
theorem cache_add_overwrite_witness :
    (Cache.get (fun _ => "hh") 0 "k"
      (Cache.add (fun _ => "hh") 0 "k" 2 none
        (Cache.add (fun _ => "hh") 0 "k" 1 none
          (⟨"./cache", [], []⟩ : CacheState Nat)))).1 = some 2 ∧
    (filesForKey "hh"
      (Cache.save (Cache.add (fun _ => "hh") 0 "k" 2 none
        (Cache.add (fun _ => "hh") 0 "k" 1 none
          (⟨"./cache", [], []⟩ : CacheState Nat)))).files).length = 1 :=
  ⟨(cache_add_overwrite (fun _ => "hh") 0 "k" 1 2 ⟨"./cache", [], []⟩ _ _ _
      (by exact ⟨List.nodup_nil, List.nodup_nil, by simp⟩) rfl rfl rfl).2.2.2.2.2,
   (cache_add_overwrite (fun _ => "hh") 0 "k" 1 2 ⟨"./cache", [], []⟩ _ _ _
      (by exact ⟨List.nodup_nil, List.nodup_nil, by simp⟩) rfl rfl rfl).2.2.2.2.1⟩

/-- One recorded `Cache.add` call, for describing an arbitrary sequence of
additions in claim C9: the time at which it runs, the key, the value, and
the optional expiry delta. -/
structure AddOp (α : Type) where
  now : Int
  key : String
  value : α
  expires_in : Option Int

/-- Run a sequence of `add` calls against a cache state. -/
def runAdds (hashkey : String → String) (ops : List (AddOp α)) (st : CacheState α) :
    CacheState α :=
  ops.foldl (fun st op => Cache.add hashkey op.now op.key op.value op.expires_in st) st

/-- `add` never changes the cache directory path. -/
theorem add_cache_dirpath (hashkey : String → String) (now : Int) (k : String)
    (v : α) (t : Option Int) (st : CacheState α) :
    (Cache.add hashkey now k v t st).cache_dirpath = st.cache_dirpath := by
  cases hf : idxFind (hashkey k) st.index with
  | none => simp [Cache.add, hf]
  | some ce => simp [Cache.add, hf, privDelete_cache_dirpath]

/-- `add` writes no file: an empty directory stays empty. -/
theorem add_files_nil (hashkey : String → String) (now : Int) (k : String)
    (v : α) (t : Option Int) (st : CacheState α) (h : st.files = []) :
    (Cache.add hashkey now k v t st).files = [] := by
  cases hf : idxFind (hashkey k) st.index with
  | none => simp [Cache.add, hf, h]
  | some ce =>
    have hce : ce.keyhash = hashkey k := keyhash_of_idxFind _ _ _ hf
    simp [Cache.add, hf, Cache.privDelete, hce, h, fsRemove]

/-- Entries surviving `__delete` were in the index before. -/
theorem mem_of_mem_privDelete_index (h : String) (st : CacheState α)
    (x : CacheEntry α) (hx : x ∈ (Cache.privDelete h st).index) : x ∈ st.index := by
  cases hf : idxFind h st.index with
  | none => simpa [Cache.privDelete, hf] using hx
  | some ce =>
    simp only [Cache.privDelete, hf, List.mem_filter] at hx
    exact hx.1

/-- Entries of the index after an `add` are the old ones or the new one. -/
theorem mem_dictInsert (x e : CacheEntry α) (l : List (CacheEntry α))
    (hx : x ∈ dictInsert e l) : x ∈ l ∨ x = e := by
  induction l with
  | nil =>
    simp only [dictInsert, List.mem_singleton] at hx
    exact Or.inr hx
  | cons y ys ih =>
    by_cases hy : y.keyhash = e.keyhash
    · simp only [dictInsert, beq_iff_eq, if_pos hy, List.mem_cons] at hx
      rcases hx with rfl | hx
      · exact Or.inr rfl
      · exact Or.inl (List.mem_cons_of_mem y hx)
    · have hby : (y.keyhash == e.keyhash) = false := beq_eq_false_iff_ne.mpr hy
      simp only [dictInsert, hby, Bool.false_eq_true, if_false, List.mem_cons] at hx
      rcases hx with rfl | hx
      · exact Or.inl (List.mem_cons_self x ys)
      · rcases ih hx with h1 | h1
        · exact Or.inl (List.mem_cons_of_mem y h1)
        · exact Or.inr h1

/-- `add` keeps every index entry's directory path equal to the cache's. -/
theorem add_entry_dirpath (hashkey : String → String) (now : Int) (k : String)
    (v : α) (t : Option Int) (st : CacheState α)
    (hd : ∀ x ∈ st.index, x.dirpath = st.cache_dirpath) :
    ∀ x ∈ (Cache.add hashkey now k v t st).index, x.dirpath = st.cache_dirpath := by
  intro x hx
  cases hf : idxFind (hashkey k) st.index with
  | none =>
    simp only [Cache.add, hf] at hx
    rcases mem_dictInsert _ _ _ hx with h1 | rfl
    · exact hd x h1
    · rfl
  | some ce =>
    simp only [Cache.add, hf] at hx
    rcases mem_dictInsert _ _ _ hx with h1 | rfl
    · exact hd x (mem_of_mem_privDelete_index _ _ _ h1)
    · exact privDelete_cache_dirpath ce.keyhash st

/-- Inserting an absent key into an index with distinct key hashes keeps
them distinct. -/
theorem keysNodup_dictInsert (e : CacheEntry α) (l : List (CacheEntry α))
    (hnd : (l.map CacheEntry.keyhash).Nodup)
    (hno : ∀ x ∈ l, x.keyhash ≠ e.keyhash) :
    ((dictInsert e l).map CacheEntry.keyhash).Nodup := by
  rw [dictInsert_eq_append e l hno, List.map_append, List.nodup_append]
  refine ⟨hnd, List.nodup_singleton _, ?_⟩
  intro a ha hb
  obtain ⟨x, hx, rfl⟩ := List.mem_map.mp ha
  simp only [List.map_cons, List.map_nil, List.mem_singleton] at hb
  exact hno x hx hb

/-- `add` keeps the index's key hashes distinct. -/
theorem add_keysNodup (hashkey : String → String) (now : Int) (k : String)
    (v : α) (t : Option Int) (st : CacheState α)
    (hnd : (st.index.map CacheEntry.keyhash).Nodup) :
    ((Cache.add hashkey now k v t st).index.map CacheEntry.keyhash).Nodup := by
  cases hf : idxFind (hashkey k) st.index with
  | none =>
    have hno : ∀ x ∈ st.index, x.keyhash ≠ hashkey k :=
      not_keyhash_of_idxFind_none _ _ hf
    simp only [Cache.add, hf]
    exact keysNodup_dictInsert _ _ hnd hno
  | some ce =>
    have hce : ce.keyhash = hashkey k := keyhash_of_idxFind _ _ _ hf
    simp only [Cache.add, hf, Cache.privDelete, hce, hf]
    refine keysNodup_dictInsert _ _ ?_ ?_
    · exact List.Sublist.nodup
        (List.Sublist.map CacheEntry.keyhash (List.filter_sublist st.index)) hnd
    · intro x hx
      have := (List.mem_filter.mp hx).2
      simp only [Bool.not_eq_true', beq_eq_false_iff_ne] at this
      exact this

/-- State facts preserved by any sequence of `add` calls starting from a
state with an empty directory: the directory stays empty, key hashes stay
distinct, entries keep the cache's directory path, and the path itself
never changes. -/
theorem runAdds_state (hashkey : String → String) (ops : List (AddOp α))
    (st : CacheState α) (h1 : st.files = [])
    (h2 : (st.index.map CacheEntry.keyhash).Nodup)
    (h3 : ∀ x ∈ st.index, x.dirpath = st.cache_dirpath) :
    (runAdds hashkey ops st).files = [] ∧
    ((runAdds hashkey ops st).index.map CacheEntry.keyhash).Nodup ∧
    (∀ x ∈ (runAdds hashkey ops st).index,
      x.dirpath = (runAdds hashkey ops st).cache_dirpath) ∧
    (runAdds hashkey ops st).cache_dirpath = st.cache_dirpath := by
  induction ops generalizing st with
  | nil => exact ⟨h1, h2, h3, rfl⟩
  | cons op rest ih =>
    rw [runAdds, List.foldl_cons, ← runAdds]
    have hcd := add_cache_dirpath hashkey op.now op.key op.value op.expires_in st
    have h3' : ∀ x ∈ (Cache.add hashkey op.now op.key op.value op.expires_in st).index,
        x.dirpath =
          (Cache.add hashkey op.now op.key op.value op.expires_in st).cache_dirpath := by
      intro x hx
      rw [hcd]
      exact add_entry_dirpath hashkey op.now op.key op.value op.expires_in st h3 x hx
    obtain ⟨g1, g2, g3, g4⟩ := ih (Cache.add hashkey op.now op.key op.value op.expires_in st)
      (add_files_nil hashkey op.now op.key op.value op.expires_in st h1)
      (add_keysNodup hashkey op.now op.key op.value op.expires_in st h2) h3'
    exact ⟨g1, g2, g3, g4.trans hcd⟩

/-- Persisting entries with distinct key hashes into an empty directory
writes exactly one file per entry, in index order. -/
theorem save_foldl_eq_append (entries : List (CacheEntry α)) (fs : List (FileRec α))
    (hex : ∀ e ∈ entries, fsExists e.filepath fs = false)
    (hnd : (entries.map CacheEntry.keyhash).Nodup) :
    entries.foldl (fun fs e => CacheEntry.save e fs) fs =
      fs ++ entries.map (fun e => ⟨e.dirpath, e.filename, e.value⟩) := by
  induction entries generalizing fs with
  | nil => simp
  | cons e rest ih =>
    rw [List.map_cons, List.foldl_cons, CacheEntry.save,
      hex e (List.mem_cons_self e rest)]
    simp only [Bool.false_eq_true, if_false]
    rw [List.map_cons] at hnd
    rw [List.nodup_cons] at hnd
    have hex' : ∀ x ∈ rest,
        fsExists x.filepath (fs ++ [⟨e.dirpath, e.filename, e.value⟩]) = false := by
      intro x hx
      have hfs := hex x (List.mem_cons_of_mem e hx)
      rw [fsExists, List.any_append]
      rw [fsExists] at hfs
      rw [hfs]
      simp only [Bool.false_or, List.any_cons, List.any_nil, Bool.or_false,
        decide_eq_false_iff_not]
      intro hcontra
      have hfn : e.filename = x.filename := congrArg Prod.snd hcontra
      have hkh : e.keyhash = x.keyhash := congrArg FileName.keyhash hfn
      exact hnd.1 (hkh ▸ List.mem_map_of_mem CacheEntry.keyhash hx)
    rw [ih _ hex' hnd.2]
    simp

/-- Rebuilding a `dict` by inserting entries with fresh distinct keys
appends them in order. -/
theorem foldl_dictInsert_eq (l acc : List (CacheEntry α))
    (hnd : ((acc ++ l).map CacheEntry.keyhash).Nodup) :
    l.foldl (fun idx e => dictInsert e idx) acc = acc ++ l := by
  induction l generalizing acc with
  | nil => simp
  | cons e rest ih =>
    rw [List.foldl_cons]
    have hacc : ∀ x ∈ acc, x.keyhash ≠ e.keyhash := by
      intro x hx hcontra
      rw [List.map_append, List.nodup_append] at hnd
      exact hnd.2.2 (List.mem_map_of_mem CacheEntry.keyhash hx)
        (by
          rw [hcontra]
          exact List.mem_map_of_mem CacheEntry.keyhash (List.mem_cons_self e rest))
    rw [dictInsert_eq_append e acc hacc]
    rw [ih (acc ++ [e]) (by simpa using hnd)]
    simp

/-- Rebuilding the index from the files written for `l` (all living in
`dirpath`) extends the accumulator with exactly `l`. -/
theorem init_fold_eq (dirpath : String) (l acc : List (CacheEntry α))
    (hd : ∀ e ∈ l, e.dirpath = dirpath)
    (hnd : ((acc ++ l).map CacheEntry.keyhash).Nodup) :
    (l.map (fun e => (⟨e.dirpath, e.filename, e.value⟩ : FileRec α))).foldl
      (fun idx f => dictInsert (CacheEntry.from_filename f.fname dirpath f.content) idx)
      acc = acc ++ l := by
  induction l generalizing acc with
  | nil => simp
  | cons e rest ih =>
    simp only [List.map_cons, List.foldl_cons]
    have hfe : CacheEntry.from_filename e.filename dirpath e.value = e := by
      obtain ⟨kh, v, dp, exp⟩ := e
      have hdp : dp = dirpath := hd _ (List.mem_cons_self _ _)
      simp [CacheEntry.from_filename, CacheEntry.filename, hdp]
    rw [hfe]
    have hacc : ∀ x ∈ acc, x.keyhash ≠ e.keyhash := by
      intro x hx hcontra
      rw [List.map_append, List.nodup_append] at hnd
      exact hnd.2.2 (List.mem_map_of_mem CacheEntry.keyhash hx)
        (by
          rw [hcontra]
          exact List.mem_map_of_mem CacheEntry.keyhash (List.mem_cons_self e rest))
    rw [dictInsert_eq_append e acc hacc]
    rw [ih (acc ++ [e]) (fun x hx => hd x (List.mem_cons_of_mem _ hx))
      (by simpa using hnd)]
    simp

/-- `init` on the directory written by `save` reconstructs that very index,
entry for entry, provided key hashes are distinct and the entries live in
the directory `init` is pointed at. -/
theorem init_index_eq (dirpath : String) (index : List (CacheEntry α))
    (hnd : (index.map CacheEntry.keyhash).Nodup)
    (hd : ∀ e ∈ index, e.dirpath = dirpath) :
    (Cache.init dirpath
      (index.map (fun e => ⟨e.dirpath, e.filename, e.value⟩))).index = index := by
  simp only [Cache.init]
  exact init_fold_eq dirpath index [] hd (by simpa using hnd)

/-- Claim C9: entries added to a cache over an initially empty directory and
then persisted with `save()` are recovered exactly (same key hash, expiry
and value) by a fresh `init()` on that directory, in particular when they
have not yet expired at read-back time. -/
theorem cache_save_init_roundtrip {α : Type} (hashkey : String → String)
    (ops : List (AddOp α)) (dirpath : String) (e : CacheEntry α) (tread : Int)
    (he : e ∈ (runAdds hashkey ops (Cache.init dirpath [])).index)
    (_hfresh : CacheEntry.isexpired tread e = false) :
    idxFind e.keyhash
      (Cache.init dirpath
        (Cache.save (runAdds hashkey ops (Cache.init dirpath []))).files).index =
      some e := by
  obtain ⟨hfiles, hnd, hdp, hcdp⟩ :=
    runAdds_state hashkey ops (Cache.init dirpath ([] : List (FileRec α)))
      rfl (by simp [Cache.init]) (by simp [Cache.init])
  have hdp' : ∀ x ∈ (runAdds hashkey ops (Cache.init dirpath [])).index,
      x.dirpath = dirpath := fun x hx => (hdp x hx).trans hcdp
  have hsave : (Cache.save (runAdds hashkey ops (Cache.init dirpath []))).files =
      (runAdds hashkey ops (Cache.init dirpath [])).index.map
        (fun e => ⟨e.dirpath, e.filename, e.value⟩) := by
    simp only [Cache.save]
    rw [hfiles]
    rw [save_foldl_eq_append _ [] (fun x _ => rfl) hnd]
    simp
  rw [hsave, init_index_eq dirpath _ hnd hdp']
  exact idxFind_of_mem_nodup _ e hnd he

/-- Witness for claim C9: a single `add` of value 5 under key `"k1"` at time
0, saved and re-initialised, is found again intact. -/
theorem cache_save_init_roundtrip_witness :
    idxFind "k1#h"
      (Cache.init "./cache"
        (Cache.save (runAdds (fun s => s ++ "#h") [⟨0, "k1", 5, none⟩]
          (Cache.init "./cache" ([] : List (FileRec Nat))))).files).index =
      some ⟨"k1#h", 5, "./cache", 864000⟩ :=
  cache_save_init_roundtrip (fun s => s ++ "#h") [⟨0, "k1", 5, none⟩] "./cache"
    ⟨"k1#h", 5, "./cache", 864000⟩ 100 (by decide) rfl
